import Mathlib

/-!
Shallow embedding of the cache-synchronization core of
`src/src/App.tsx` (GraphQLClientApp): the Apollo cache `update`
callbacks registered with the add/edit/delete mutations, the mutation
driver around them, the `onToggle` intent function, and the read-time
display sort of `TodoList`, together with proofs of the specification
properties.
-/

/-- A task item, `interface Todo` in `App.tsx` (lines 20-24). -/
structure Todo where
  id : String
  text : String
  completed : Bool
deriving DecidableEq, Repr

/-- The cached result of the `Todos` query as seen by `cache.readQuery`:
`none` when no result has been established for the query key (cache miss),
`some todos` once established. -/
abbrev TodosCache := Option (List Todo)

/-- The `todos` value computed by the `addTodo` mutation `update` callback
(`App.tsx` lines 122-130): `query?.todos.concat([addTodo])`.  When the cache
is unestablished, `query` is `null` and the optional chain evaluates to
`undefined` (`none` here); otherwise the returned entity is appended at the
end of the current sequence. -/
def addTodoUpdate (query : TodosCache) (addTodo : Todo) : TodosCache :=
  query.map (fun todos => todos ++ [addTodo])

/-- The `todos` value computed by the `editTodo` mutation `update` callback
(`App.tsx` lines 132-141): `const todos = query?.todos || []` is written
back as is.  The callback binds only `cache`, so the mutation response is
never consulted and no entity field is rewritten. -/
def editTodoUpdate (query : TodosCache) : TodosCache :=
  some (query.getD [])

/-- The `todos` value computed by the `deleteTodo` mutation `update` callback
(`App.tsx` lines 143-151): `query?.todos.filter((t) => t.id !== deleteTodo.id)`.
`none` (`undefined`) on a cache miss, otherwise the subsequence of the
current result without the confirmed-deleted id. -/
def deleteTodoUpdate (query : TodosCache) (deletedId : String) : TodosCache :=
  query.map (fun todos => todos.filter (fun t => t.id != deletedId))

/-- `cache.writeQuery` restricted to the `todos` field: writing a defined
list replaces the cached value (also establishing it on first write);
an `undefined` field value is not written, so the cache keeps its previous
state. -/
def writeTodos (cache : TodosCache) (v : TodosCache) : TodosCache :=
  match v with
  | some todos => some todos
  | none => cache

/-- Iterated Insert-on-success: the `addTodo` update callback applied once
per successful add-mutation response, threading the cached value. -/
def runInserts (cache : TodosCache) (es : List Todo) : TodosCache :=
  es.foldl addTodoUpdate cache

/-- Outcome of one mutation call against the remote collaborator. -/
inductive MutationResult (α : Type) where
  | success : α → MutationResult α
  | failure : String → MutationResult α
deriving DecidableEq, Repr

/-- Modelled from the spec: the dispatch around the registered `update`
callbacks lives in the Apollo client library, not in this repository.
Per the spec (sections 6 and 7), the `update` callback runs only on
confirmed mutation success; a rejected mutation performs no cache write
and its failure is surfaced to the caller.  The driver returns the cache
state after the call together with the surfaced error, if any. -/
def runMutation {α : Type} (cache : TodosCache) (result : MutationResult α)
    (callback : TodosCache → α → TodosCache) : TodosCache × Option String :=
  match result with
  | .success a => (writeTodos cache (callback cache a), none)
  | .failure msg => (cache, some msg)

/-- The add-mutation flow: on success, reconcile via `addTodoUpdate`. -/
def runAddMutation (cache : TodosCache) (r : MutationResult Todo) :
    TodosCache × Option String :=
  runMutation cache r addTodoUpdate

/-- Response shape of the edit mutation: `editTodo { id completed }`. -/
structure EditTodoResponse where
  id : String
  completed : Bool
deriving DecidableEq, Repr

/-- The edit-mutation flow: on success, reconcile via `editTodoUpdate`
(which ignores the response). -/
def runEditMutation (cache : TodosCache) (r : MutationResult EditTodoResponse) :
    TodosCache × Option String :=
  runMutation cache r (fun c _ => editTodoUpdate c)

/-- The delete-mutation flow: on success, reconcile via `deleteTodoUpdate`
with the confirmed id. -/
def runDeleteMutation (cache : TodosCache) (r : MutationResult String) :
    TodosCache × Option String :=
  runMutation cache r deleteTodoUpdate

/-- The variables object passed to the edit mutation by `onToggle`. -/
structure EditTodoVariables where
  id : String
  completed : Bool
deriving DecidableEq, Repr

/-- `onToggle` (`App.tsx` lines 158-165): issues the edit mutation with the
same id and the negation of the current completed flag. -/
def onToggle (id : String) (completed : Bool) : EditTodoVariables :=
  { id := id, completed := !completed }

/-- The comparator of the display sort (`TodoList`, `App.tsx` lines 69-73):
negative when `a` is completed and `b` is not, positive when `a` is not
completed and `b` is, zero otherwise. -/
def todoComparator (a b : Todo) : Int :=
  if a.completed && !b.completed then -1
  else if !a.completed && b.completed then 1
  else 0

/-- The order induced by the comparator: `a` may come no later than `b`
exactly when the comparator is nonpositive. -/
def todoLe (a b : Todo) : Bool :=
  decide (todoComparator a b ≤ 0)

/-- `todos.sort(comparator)` as a pure function on contents: JavaScript
`Array.prototype.sort` is a stable sort placing `a` no later than `b`
whenever the comparator result is nonpositive. -/
def displaySort (todos : List Todo) : List Todo :=
  todos.mergeSort todoLe

/-- Heap of JavaScript array objects holding todos: the index of an entry
is the array object identity, the entry its current contents. -/
abbrev JsHeap := List (List Todo)

/-- Reading the contents of the array referenced by `r`. -/
def readArr (h : JsHeap) (r : Nat) : List Todo :=
  h.getD r []

/-- Allocating a fresh array with contents `v`, returning the new heap and
the new reference. -/
def allocArr (h : JsHeap) (v : List Todo) : JsHeap × Nat :=
  (h ++ [v], h.length)

/-- Overwriting the contents of the array referenced by `r`. -/
def storeArr (h : JsHeap) (r : Nat) (v : List Todo) : JsHeap :=
  h.set r v

/-- `const todoList: Todo[] = [...data.todos]` (`App.tsx` line 156): a fresh
array is allocated holding the cached contents. -/
def spreadTodos (h : JsHeap) (r : Nat) : JsHeap × Nat :=
  allocArr h (readArr h r)

/-- `todos.sort(...)` (`TodoList`, `App.tsx` line 69) mutates the array it
is called on: the referenced entry is rewritten with the sorted contents. -/
def sortTodosInPlace (h : JsHeap) (r : Nat) : JsHeap :=
  storeArr h r (displaySort (readArr h r))

/-- Rendering the list: `App` spread-copies the cached todos array and hands
the copy to `TodoList`, whose display sort mutates the copy in place.
Returns the heap after rendering and the reference of the displayed array. -/
def renderTodoList (h : JsHeap) (cacheRef : Nat) : JsHeap × Nat :=
  let p := spreadTodos h cacheRef
  (sortTodosInPlace p.1 p.2, p.2)

/-! ## Helper lemmas -/

theorem runInserts_established (es : List Todo) :
    ∀ X : List Todo, runInserts (some X) es = some (X ++ es) := by
  induction es with
  | nil => intro X; simp [runInserts]
  | cons e es ih =>
    intro X
    have h1 : runInserts (some X) (e :: es) = runInserts (some (X ++ [e])) es := rfl
    rw [h1, ih (X ++ [e])]
    simp

theorem todoLe_iff (a b : Todo) :
    todoLe a b = true ↔ (b.completed = true → a.completed = true) := by
  cases ha : a.completed <;> cases hb : b.completed <;>
    simp [todoLe, todoComparator, ha, hb]

theorem todoLe_trans (a b c : Todo) :
    todoLe a b = true → todoLe b c = true → todoLe a c = true := by
  rw [todoLe_iff, todoLe_iff, todoLe_iff]
  intro h1 h2 h3
  exact h1 (h2 h3)

theorem todoLe_total (a b : Todo) : (todoLe a b || todoLe b a) = true := by
  cases ha : a.completed <;> cases hb : b.completed <;>
    simp [todoLe, todoComparator, ha, hb]

theorem pairwise_todoLe_split (l : List Todo)
    (hp : l.Pairwise (fun a b => todoLe a b = true)) :
    l = l.filter (fun t => t.completed) ++ l.filter (fun t => !t.completed) := by
  induction l with
  | nil => rfl
  | cons a t ih =>
    rw [List.pairwise_cons] at hp
    cases ha : a.completed with
    | true =>
      have ht := ih hp.2
      simp only [List.filter_cons, ha]
      simpa using congrArg (fun l => a :: l) ht
    | false =>
      have hall : ∀ b ∈ t, b.completed = false := by
        intro b hb
        have := (todoLe_iff a b).1 (hp.1 b hb)
        cases hbc : b.completed with
        | true => rw [hbc] at this; rw [this rfl] at ha; cases ha
        | false => rfl
      have hfc : List.filter (fun t => t.completed) (a :: t) = [] := by
        rw [List.filter_eq_nil_iff]
        intro b hb
        rcases List.mem_cons.1 hb with h | h
        · subst h; simp [ha]
        · simp [hall b h]
      have hfn : List.filter (fun t : Todo => !t.completed) (a :: t) = a :: t := by
        rw [List.filter_eq_self]
        intro b hb
        rcases List.mem_cons.1 hb with h | h
        · subst h; simp [ha]
        · simp [hall b h]
      rw [hfc, hfn, List.nil_append]

theorem displaySort_filter_eq (l : List Todo) (p : Todo → Bool)
    (hmono : ∀ a b : Todo, p a = true → p b = true → todoLe a b = true) :
    (displaySort l).filter p = l.filter p := by
  have hsub : (l.filter p).Sublist (displaySort l) := by
    refine List.sublist_mergeSort todoLe_trans todoLe_total ?_ (List.filter_sublist l)
    exact List.pairwise_of_forall_mem_list
      (fun a ha b hb => hmono a b (List.of_mem_filter ha) (List.of_mem_filter hb))
  have hsub2 : (l.filter p).Sublist ((displaySort l).filter p) := by
    have := List.Sublist.filter p hsub
    rwa [List.filter_filter, show (fun a => p a && p a) = p from funext (fun a => Bool.and_self (p a))] at this
  have hlen : (l.filter p).length = ((displaySort l).filter p).length := by
    rw [← List.countP_eq_length_filter, ← List.countP_eq_length_filter]
    exact (List.Perm.countP_eq p (List.mergeSort_perm l todoLe)).symm
  exact (hsub2.eq_of_length hlen).symm

/-! ## Claim theorems -/

/-- C1: for an established cache `X`, each Insert-on-success appends the
returned entity at the end; a sequence of successful inserts with distinct
ids therefore yields `X ++ es`, whose length is the starting length plus the
number of inserts and whose tail after the original entries is the inserted
entities in insertion order. -/
theorem insert_on_success_appends (X es : List Todo)
    (hdistinct : (es.map Todo.id).Nodup) :
    runInserts (some X) es = some (X ++ es) ∧
      (X ++ es).length = X.length + es.length ∧
      (X ++ es).drop X.length = es :=
  ⟨runInserts_established es X, by simp, List.drop_left X es⟩

/-- Witness for C1 at a concrete input with distinct ids. -/
theorem insert_on_success_appends_witness :
    runInserts (some [{ id := "1", text := "a", completed := false }])
        [{ id := "2", text := "b", completed := true },
         { id := "3", text := "c", completed := false }] =
      some ([{ id := "1", text := "a", completed := false }] ++
        [{ id := "2", text := "b", completed := true },
         { id := "3", text := "c", completed := false }]) :=
  (insert_on_success_appends _ _ (by decide)).1

/-- C2: for an established cache `X`, Remove-on-success with confirmed id
`d` writes back exactly the subsequence of `X` (so relative order is
preserved) that excludes every entity with id `d` and keeps every other
entity. -/
theorem remove_on_success_filters (X : List Todo) (d : String) :
    ∃ Y, deleteTodoUpdate (some X) d = some Y ∧
      Y = X.filter (fun t => t.id != d) ∧
      Y.Sublist X ∧
      (∀ t ∈ Y, t.id ≠ d) ∧
      (∀ t ∈ X, t.id ≠ d → t ∈ Y) := by
  refine ⟨X.filter (fun t => t.id != d), rfl, rfl, List.filter_sublist X, ?_, ?_⟩
  · intro t ht
    have := List.of_mem_filter ht
    simpa using this
  · intro t ht hne
    exact List.mem_filter.2 ⟨ht, by simpa using hne⟩

/-- C3 counterexample: the claim says Insert-on-success against an
unestablished cache writes the same value as against an established empty
sequence, namely the one-element sequence; in the code the optional chain
`query?.todos.concat([addTodo])` evaluates to `undefined` on a cache miss,
so nothing like the one-element list is written. -/
theorem cache_miss_insert_counterexample :
    addTodoUpdate none { id := "1", text := "buy milk", completed := false } ≠
        addTodoUpdate (some [])
          { id := "1", text := "buy milk", completed := false } ∧
      addTodoUpdate none { id := "1", text := "buy milk", completed := false } ≠
        some [{ id := "1", text := "buy milk", completed := false }] := by
  constructor <;> simp [addTodoUpdate]

/-- C3 (amended): only Patch-on-success treats an unestablished cache like
an established empty sequence (it writes back the empty list either way);
Insert-on-success and Remove-on-success compute an `undefined` todos value
on a cache miss, whereas against an established empty sequence they write a
defined list. -/
theorem cache_miss_behavior (e : Todo) (d : String) :
    editTodoUpdate none = editTodoUpdate (some []) ∧
      editTodoUpdate none = some [] ∧
      addTodoUpdate none e = none ∧
      deleteTodoUpdate none d = none ∧
      addTodoUpdate (some []) e = some [e] ∧
      deleteTodoUpdate (some []) d = some [] := by
  refine ⟨rfl, rfl, rfl, rfl, rfl, rfl⟩

/-- C4: for an established cache `X` and any successful toggle response,
Patch-on-success writes back a sequence of the same length, the same id
sequence (hence id set), and in fact the very same entities in the same
order: the response is never consulted. -/
theorem patch_on_success_frame (X : List Todo) (resp : EditTodoResponse) :
    ∃ Y, editTodoUpdate (some X) = some Y ∧
      Y.length = X.length ∧
      Y.map Todo.id = X.map Todo.id ∧
      Y = X :=
  ⟨X, rfl, rfl, rfl, rfl⟩

/-- C5: Remove-on-success is idempotent: applying it twice with the same id
writes the same cache value as applying it once. -/
theorem remove_on_success_idempotent (c : TodosCache) (d : String) :
    deleteTodoUpdate (deleteTodoUpdate c d) d = deleteTodoUpdate c d := by
  cases c with
  | none => rfl
  | some X => simp [deleteTodoUpdate, List.filter_filter]

/-- C6: Remove-on-success with an id matching no entity of the established
cache writes back the sequence unchanged. -/
theorem remove_absent_id_noop (X : List Todo) (d : String)
    (habsent : ∀ t ∈ X, t.id ≠ d) :
    deleteTodoUpdate (some X) d = some X := by
  simp only [deleteTodoUpdate, Option.map]
  rw [List.filter_eq_self.2 (fun t ht => by simpa using habsent t ht)]

/-- Witness for C6: removing the absent id "9" from the one-element cache
of spec scenario 3 leaves it unchanged. -/
theorem remove_absent_id_noop_witness :
    deleteTodoUpdate (some [{ id := "1", text := "a", completed := false }]) "9" =
      some [{ id := "1", text := "a", completed := false }] :=
  remove_absent_id_noop _ "9" (by decide)

/-- C7: a failed add, edit or delete mutation leaves the cache exactly as
it was before the call and surfaces the failure to the caller; the update
callback (reconciliation) runs only on success. -/
theorem mutation_failure_leaves_cache (c : TodosCache) (msg : String) :
    runAddMutation c (.failure msg) = (c, some msg) ∧
      runEditMutation c (.failure msg) = (c, some msg) ∧
      runDeleteMutation c (.failure msg) = (c, some msg) :=
  ⟨rfl, rfl, rfl⟩

/-- C8: rendering the todo list never mutates the stored cached array: the
display sort operates in place on the spread copy allocated at
`App.tsx` line 156, so after rendering, the array the cache references
holds exactly its previous contents. -/
theorem render_does_not_mutate_cache (h : JsHeap) (cacheRef : Nat)
    (hlt : cacheRef < h.length) :
    readArr (renderTodoList h cacheRef).1 cacheRef = readArr h cacheRef := by
  simp only [renderTodoList, spreadTodos, allocArr, sortTodosInPlace, storeArr, readArr]
  rw [List.getD_eq_getElem?_getD, List.getD_eq_getElem?_getD]
  rw [List.getElem?_set_ne (Nat.ne_of_gt hlt)]
  rw [List.getElem?_append]
  simp [hlt]

/-- Witness for C8 on a one-array heap. -/
theorem render_does_not_mutate_cache_witness :
    readArr (renderTodoList [[{ id := "1", text := "a", completed := false }]] 0).1 0 =
      readArr [[{ id := "1", text := "a", completed := false }]] 0 :=
  render_does_not_mutate_cache _ 0 (by decide)

/-- C9: the toggle intent issues the edit mutation with the same id and the
negation of the current completed flag. -/
theorem on_toggle_negates (i : String) (c : Bool) :
    onToggle i c = { id := i, completed := !c } :=
  rfl

/-- C10: the displayed order is the completed entities of the cached list,
in their original relative order, followed by the non-completed entities in
their original relative order; in particular every completed entity is
placed before every non-completed one and entities with equal flags are
never reordered. -/
theorem display_sort_completed_first_stable (l : List Todo) :
    displaySort l =
        l.filter (fun t => t.completed) ++ l.filter (fun t => !t.completed) ∧
      (displaySort l).Pairwise
        (fun a b => b.completed = true → a.completed = true) := by
  have hsorted : (displaySort l).Pairwise (fun a b => todoLe a b = true) :=
    List.sorted_mergeSort todoLe_trans todoLe_total l
  constructor
  · have hsplit := pairwise_todoLe_split (displaySort l) hsorted
    rw [hsplit,
      displaySort_filter_eq l (fun t => t.completed)
        (fun a b ha hb => (todoLe_iff a b).2 (fun _ => ha)),
      displaySort_filter_eq l (fun t => !t.completed)
        (fun a b ha hb => (todoLe_iff a b).2
          (fun hbc => by rw [Bool.not_eq_true'] at hb; rw [hb] at hbc; cases hbc))]
  · exact hsorted.imp (fun hab => (todoLe_iff _ _).1 hab)
